import Mathlib

/-!
Verification of the meta-review scoring engine (`meta_review/data.py`).

The development shallowly embeds the parts of `MetaReviewHandler` that the
properties below are about: the normalizer's participant registration
(`__init__`), the comment/reaction loaders (`__load_comments_to_memory`,
`__load_reactions_to_memory`), the punishment rule (`__check_comment_update`),
the score aggregator (`__update_score`), the last-active-time update
(`__update_time`), the rank assigner (`__update_rankings`) and the weight
factor recalculation (`__update_weight_factors`).

Python floats are modelled as exact rationals (`ℚ`): every constant in the
source (0.5, 0.05, 0.2, 0.9, 0.1) is handled symbolically by the source's
arithmetic and the properties of interest are algebraic, not rounding facts.
Timestamps are modelled as integers (`Time`); nullable columns are `Option`.
An attribute access on a missing (`None`) object — the Python `AttributeError`
crash — is modelled by an `Option`-returning function producing `none`.
-/

namespace MetaReview

/-- Timestamps, modelling timezone-aware datetimes: only their linear order
matters to the source. -/
abbrev Time := Int

/-- The persisted `Participant` row, with the fields the source reads and
writes. `rank` and `trend` are nullable integer columns, `last_active_at` a
nullable datetime. -/
structure Participant where
  login : String
  name : String
  score : ℚ
  rank : Option Nat
  trend : Option Int
  weight_factor : ℚ
  pos_in : Nat
  weighted_pos_in : ℚ
  pos_out : Nat
  neg_in : Nat
  weighted_neg_in : ℚ
  neg_out : Nat
  last_active_at : Option Time
  punishment : ℚ
  deriving DecidableEq

/-- The persisted `Reaction` row as the aggregator sees it: `giver` and
`receiver` are nullable foreign keys, stored here as the referenced login
(`none` models an unset/null reference). -/
structure Reaction where
  id : Nat
  created_at : Time
  content : String
  giver : Option String
  receiver : Option String
  comment_id : Nat
  deriving DecidableEq

/-- The per-comment meta-review tallies the aggregator accumulates onto
`reaction.review` (source lines 407-418). -/
structure CommentScore where
  pos : Nat
  neg : Nat
  weighted_pos : ℚ
  weighted_neg : ℚ
  score : ℚ
  deriving DecidableEq

/-- Whether the character list `pat` occurs at the very start of `s`. -/
def beginsWith : List Char → List Char → Bool
  | [], _ => true
  | _ :: _, [] => false
  | p :: ps, c :: cs => (p == c) && beginsWith ps cs

/-- Whether `pat` occurs as a contiguous run anywhere in `s`. -/
def findSub : List Char → List Char → Bool
  | [], pat => beginsWith pat []
  | c :: t, pat => beginsWith pat (c :: t) || findSub t pat

/-- Python's `s.find(pat) != -1`: substring containment test, used by the
source on reaction `content` (lines 401, 410, 435, 439). -/
def containsSub (s pat : String) : Bool := findSub s.data pat.data

/-- The aggregator's skip test (source lines 391-397 and 427-433): a reaction
is skipped exactly when the participant's `last_active_at` is non-null and the
reaction was created strictly before it. -/
def skipOld (ckpt : Option Time) (r : Reaction) : Bool :=
  match ckpt with
  | some t => decide (r.created_at < t)
  | none => false

/-- Running state of the received-reactions loop of `__update_score`:
the accumulators `p1`, `n1`, `pos_cnt`, `neg_cnt`, plus the per-comment
tallies being mutated through `reaction.review`. -/
structure RecvState where
  p1 : ℚ
  n1 : ℚ
  pos_cnt : Nat
  neg_cnt : Nat
  reviews : Nat → CommentScore

/-- Comment tally update for a positive received reaction (lines 407-409). -/
def bumpPos (w : ℚ) (c : CommentScore) : CommentScore :=
  { c with pos := c.pos + 1, weighted_pos := c.weighted_pos + w, score := c.score + w }

/-- Comment tally update for a negative received reaction (lines 416-418). -/
def bumpNeg (w : ℚ) (c : CommentScore) : CommentScore :=
  { c with neg := c.neg + 1, weighted_neg := c.weighted_neg + w, score := c.score - w }

/-- Point update of the comment-tally table at comment id `i`. -/
def setReview (f : Nat → CommentScore) (i : Nat) (g : CommentScore → CommentScore) :
    Nat → CommentScore :=
  fun j => if j = i then g (f j) else f j

/-- One iteration of the received-reactions loop (source lines 389-421).
The giver's weight factor is read before the content test (line 400); when the
giver reference is unset this is Python's `None.weight_factor`
`AttributeError`, modelled as `none`. -/
def recvStep (W : String → ℚ) (ckpt : Option Time) (st : RecvState) (r : Reaction) :
    Option RecvState :=
  if skipOld ckpt r then some st
  else
    match r.giver with
    | none => none
    | some g =>
      let w := W g
      if containsSub r.content "THUMBS_UP" then
        some { st with p1 := st.p1 + w, pos_cnt := st.pos_cnt + 1,
                       reviews := setReview st.reviews r.comment_id (bumpPos w) }
      else if containsSub r.content "THUMBS_DOWN" then
        some { st with n1 := st.n1 + w, neg_cnt := st.neg_cnt + 1,
                       reviews := setReview st.reviews r.comment_id (bumpNeg w) }
      else some st

/-- The full received-reactions loop, propagating the crash. -/
def recvFold (W : String → ℚ) (ckpt : Option Time) :
    RecvState → List Reaction → Option RecvState
  | st, [] => some st
  | st, r :: rs =>
    match recvStep W ckpt st r with
    | none => none
    | some st2 => recvFold W ckpt st2 rs

/-- One iteration of the given-reactions loop (source lines 425-445),
accumulating the pair `(p2, n2)`. -/
def giveStep (ckpt : Option Time) (acc : Nat × Nat) (r : Reaction) : Nat × Nat :=
  if skipOld ckpt r then acc
  else if containsSub r.content "THUMBS_UP" then (acc.1 + 1, acc.2)
  else if containsSub r.content "THUMBS_DOWN" then (acc.1, acc.2 + 1)
  else acc

/-- The all-zero comment-tally table, a convenient initial `reviews` value
for concrete runs. -/
def zeroReviews : Nat → CommentScore :=
  fun _ => { pos := 0, neg := 0, weighted_pos := 0, weighted_neg := 0, score := 0 }

/-- The body of `__update_score` (source lines 381-466) for one participant.
`W` gives each giver login's stored `weight_factor` (weight factors are not
modified by `__update_score`, so a fixed lookup is faithful); `rv` is the
incoming per-comment tally table; `recv` and `given` are the participant's
received and given reactions. Returns `none` exactly when the Python loop
raises (reading `weight_factor` of an unset giver). The score formula is
`s = p1 - n1 + c1 * p2 + c2 * n2` with `c1 = 0.05`, `c2 = 0.2`, added to the
existing cumulative score (line 466); the six counters are incremented
(lines 448-453). -/
def updateScoreParticipant (W : String → ℚ) (rv : Nat → CommentScore)
    (p : Participant) (recv given : List Reaction) : Option Participant :=
  match recvFold W p.last_active_at
      { p1 := 0, n1 := 0, pos_cnt := 0, neg_cnt := 0, reviews := rv } recv with
  | none => none
  | some st =>
    let pn := given.foldl (giveStep p.last_active_at) (0, 0)
    some { p with
      pos_in := p.pos_in + st.pos_cnt,
      weighted_pos_in := p.weighted_pos_in + st.p1,
      pos_out := p.pos_out + pn.1,
      neg_in := p.neg_in + st.neg_cnt,
      weighted_neg_in := p.weighted_neg_in + st.n1,
      neg_out := p.neg_out + pn.2,
      score := p.score + (st.p1 - st.n1 + 0.05 * (pn.1 : ℚ) + 0.2 * (pn.2 : ℚ)) }

/-- The time columns of a comment that `__update_time` reads. -/
structure CommentT where
  created_at : Time
  last_edited_at : Option Time
  deriving DecidableEq

/-- The null-aware maximum step of `__update_time` (lines 323-326 and
333-336 and 340-343): starting from a possibly null watermark, fold in one
timestamp. -/
def bump (la : Option Time) (t : Time) : Time :=
  match la with
  | none => t
  | some x => if t > x then t else x

/-- One comment's contribution to `__update_time` (lines 322-329): first the
creation time, then the edit time when it is non-null and strictly later. -/
def commentTimeStep (la : Option Time) (c : CommentT) : Option Time :=
  let x := bump la c.created_at
  match c.last_edited_at with
  | some e => some (if e > x then e else x)
  | none => some x

/-- The body of `__update_time` (source lines 318-343) for one participant:
fold the participant's comments, then given reactions, then received
reactions into `last_active_at`. -/
def updateTimeParticipant (p : Participant) (comments : List CommentT)
    (given recv : List Reaction) : Participant :=
  let la := comments.foldl commentTimeStep p.last_active_at
  let la := given.foldl (fun a r => some (bump a r.created_at)) la
  let la := recv.foldl (fun a r => some (bump a r.created_at)) la
  { p with last_active_at := la }

/-- The body of `__check_comment_update` (source lines 129-152): scan the
comment's reactions once for any created strictly before the edit, then apply
the 0.5 penalty at most once, adding to `punishment` and subtracting from
`score`. `last_edited_at` and the comment's reactions are passed in; `author`
is the comment's author. -/
def check_comment_update (last_edited_at : Option Time) (rs : List Reaction)
    (author : Participant) : Participant :=
  let need := rs.any (fun r =>
    match last_edited_at with
    | some t => decide (t > r.created_at)
    | none => false)
  if need then
    { author with punishment := author.punishment + 0.5, score := author.score - 0.5 }
  else author

/-- The body of `__update_weight_factors` (source lines 543-556). The max
fold starts at 1.0 and replaces it only on a strictly greater score; then each
participant with negative score gets weight 0, and every other participant
gets `score / max_score * 0.9 + 0.1`. Participants are carried as a list in
the dictionary's iteration order. -/
def updateWeightFactors (ps : List Participant) : List Participant :=
  let m := ps.foldl (fun acc p => if p.score > acc then p.score else acc) 1
  ps.map (fun p =>
    if p.score < 0 then { p with weight_factor := 0 }
    else { p with weight_factor := p.score / m * 0.9 + 0.1 })

/-- Modelled from the spec's words, for comparison with the source:
`max_score = max(1.0, maximum score over all participants)`. -/
def specMaxScore (ps : List Participant) : ℚ :=
  ps.foldl (fun acc p => max acc p.score) 1

/-- Modelled from the spec's words, for comparison with the source: weight 0
for negative scores, else `0.1 + 0.9 * (score / max_score)`. -/
def specWeightUpdate (ps : List Participant) : List Participant :=
  ps.map (fun p =>
    if p.score < 0 then { p with weight_factor := 0 }
    else { p with weight_factor := 0.1 + 0.9 * (p.score / specMaxScore ps) })

/-- The per-participant assignment step of `__update_rankings` (lines
487-511): when the old `rank` is set, `trend` becomes old rank minus new
rank; the new rank is stored in either case. (Stored ranks are always at
least 1, so Python's truthiness test on `participant.rank` is the null
test.) -/
def rankOne (p : Participant) (newRank : Nat) : Participant :=
  match p.rank with
  | some r => { p with trend := some ((r : Int) - (newRank : Int)), rank := some newRank }
  | none => { p with rank := some newRank }

/-- The ranking loop of `__update_rankings` (lines 480-511): `rank` starts at
0 and `last` models `last_score` (`none` for the initial minus-infinity
sentinel, which is never compared because the `rank == 0` test fires first).
The rank is incremented exactly when `rank == 0` or the score differs from
the previous participant's. -/
def assignRanksAux : Nat → Option ℚ → List Participant → List Participant
  | _, _, [] => []
  | rank, last, p :: ps =>
    if rank = 0 ∨ last ≠ some p.score then
      rankOne p (rank + 1) :: assignRanksAux (rank + 1) (some p.score) ps
    else
      rankOne p rank :: assignRanksAux rank last ps

/-- Rank assignment over the participant sequence already ordered by
`order_by('-score', '-pos_in')`. -/
def assignRanks (ps : List Participant) : List Participant :=
  assignRanksAux 0 none ps

/-- The order produced by `order_by('-score', '-pos_in')` between adjacent
participants: score strictly descending, or equal scores with `pos_in`
descending. -/
def ordBy (a b : Participant) : Prop :=
  b.score < a.score ∨ (b.score = a.score ∧ b.pos_in ≤ a.pos_in)

/-- The dense-ranking relation the claim states between adjacent participants
of the ranked output. -/
def adjacentRankRel (a b : Participant) : Prop :=
  (a.score = b.score ↔ a.rank = b.rank) ∧
  (b.score < a.score ↔ b.rank = a.rank.map (fun k => k + 1))

/-- A raw `user`/`author` record of the feed: only `login` and `name` are
read by the normalizer. -/
structure RawPerson where
  login : String
  name : String
  deriving DecidableEq

/-- A raw reaction record as the normalizer's participant pass reads it:
only the `user` field matters there. -/
structure NormReaction where
  user : RawPerson
  deriving DecidableEq

/-- A raw comment record as the normalizer's participant pass reads it: its
`author` and its list of reactions. -/
structure NormComment where
  author : RawPerson
  reactions : List NormReaction
  deriving DecidableEq

/-- Dictionary insertion, `participants[k] = v`. -/
def insertP (m : String → Option RawPerson) (k : String) (v : RawPerson) :
    String → Option RawPerson :=
  fun x => if x = k then some v else m x

/-- The participant-registration pass of `__init__` (source lines 73-91).
For each comment the author is registered when the author's login is
non-empty; then for each of the comment's reactions the source tests
`author['login']` — the comment author's login, not the reaction user's —
before registering the reaction's user (lines 89-91). An absent `reactions`
list and an empty one behave identically (the loop body never runs). -/
def buildParticipants (comments : List NormComment) : String → Option RawPerson :=
  comments.foldl (fun m c =>
    let m1 := if c.author.login = "" then m else insertP m c.author.login c.author
    c.reactions.foldl (fun acc r =>
      if c.author.login = "" then acc else insertP acc r.user.login r.user) m1)
    (fun _ => none)

/-- A raw reaction record as `__load_reactions_to_memory` reads it, after the
normalizer stamped `receiver` and `comment_id`. -/
structure RawReaction where
  id : Nat
  createdAt : Time
  content : String
  userLogin : String
  receiverLogin : String
  comment_id : Nat
  deriving DecidableEq

/-- The refresh of one freshly created `Reaction` row in
`__load_reactions_to_memory` (source lines 283-292): `created_at` and
`content` are copied; the giver and receiver references are attached only
when the corresponding login is non-empty, and otherwise stay unset. -/
def loadReaction (raw : RawReaction) : Reaction :=
  { id := raw.id,
    created_at := raw.createdAt,
    content := raw.content,
    giver := if raw.userLogin = "" then none else some raw.userLogin,
    receiver := if raw.receiverLogin = "" then none else some raw.receiverLogin,
    comment_id := raw.comment_id }

/-- A raw comment record of the feed snapshot as the comment loader reads
it. -/
structure FeedComment where
  id : Nat
  bodyText : String
  diffHunk : String
  createdAt : Option Time
  lastEditedAt : Option Time
  authorLogin : String
  deriving DecidableEq

/-- A persisted `Comment` row after the loader's refresh pass. -/
structure CommentRec where
  id : Nat
  body : String
  diff : String
  created_at : Option Time
  last_edited_at : Option Time
  author : Option String
  deriving DecidableEq

/-- The dictionary lookup `self.comments[c.id]` over the feed snapshot,
`none` modelling a `KeyError`. -/
def lookupFeed (feed : List FeedComment) (i : Nat) : Option FeedComment :=
  feed.find? (fun c => c.id == i)

/-- The field refresh of one persisted comment from its feed record (source
lines 243-249): the author reference is attached only for a non-empty
login. -/
def refreshComment (c : FeedComment) : CommentRec :=
  { id := c.id,
    body := c.bodyText,
    diff := c.diffHunk,
    created_at := c.createdAt,
    last_edited_at := c.lastEditedAt,
    author := if c.authorLogin = "" then none else some c.authorLogin }

/-- The refresh loop of `__load_comments_to_memory` (source lines 241-255):
every persisted comment id is looked up in the feed snapshot; a single
missing id aborts the whole pass with a lookup error (`none`). The
punishment call made per comment mutates participants, not the lookup
outcome, and is modelled separately by `check_comment_update`. -/
def refreshAll (feed : List FeedComment) : List Nat → Option (List CommentRec)
  | [] => some []
  | i :: t =>
    match lookupFeed feed i with
    | none => none
    | some c =>
      match refreshAll feed t with
      | none => none
      | some rest => some (refreshComment c :: rest)

/-- The whole of `__load_comments_to_memory` (source lines 203-255) as far
as record bookkeeping goes: ids persisted before the run (`oldIds`) are kept,
feed comments not among them are bulk-created, and then every persisted row —
old and new — is refreshed from the snapshot. -/
def loadComments (oldIds : List Nat) (feed : List FeedComment) :
    Option (List CommentRec) :=
  let newIds := (feed.map FeedComment.id).filter (fun i => !(oldIds.contains i))
  refreshAll feed (oldIds ++ newIds)

/-- Weight actually read for a reaction: the giver's stored weight factor,
defaulting (never reached on the success path) to 0 for an unset giver. -/
def weightOf (W : String → ℚ) (r : Reaction) : ℚ :=
  (r.giver.map W).getD 0

/-- Sum of the givers' weight factors over a list of reactions. -/
def sumW (W : String → ℚ) (rs : List Reaction) : ℚ :=
  (rs.map (weightOf W)).sum

/-- A reaction the aggregator does not skip. -/
def isNewR (ckpt : Option Time) (r : Reaction) : Bool := !skipOld ckpt r

/-- Closed form of the aggregator's positive class: candidate reactions whose
content contains "THUMBS_UP". -/
def upClassL (ckpt : Option Time) (rs : List Reaction) : List Reaction :=
  rs.filter (fun r => isNewR ckpt r && containsSub r.content "THUMBS_UP")

/-- Closed form of the aggregator's negative class: candidate reactions whose
content contains "THUMBS_DOWN" but not "THUMBS_UP" (the "THUMBS_UP" test
comes first in the source's if/elif chain). -/
def downClassL (ckpt : Option Time) (rs : List Reaction) : List Reaction :=
  rs.filter (fun r =>
    isNewR ckpt r && !containsSub r.content "THUMBS_UP" &&
      containsSub r.content "THUMBS_DOWN")

/-- Modelled from the claim's words, for comparison with the source: the
delta `S = P1 - N1 + 0.05 * P2 + 0.2 * N2` where `N1` ranges over ALL
candidate received reactions whose content contains "THUMBS_DOWN" (and `N2`
likewise over given ones), exactly as the claim defines the classes. -/
def claimDelta (W : String → ℚ) (ckpt : Option Time) (recv given : List Reaction) : ℚ :=
  sumW W (recv.filter (fun r => isNewR ckpt r && containsSub r.content "THUMBS_UP"))
  - sumW W (recv.filter (fun r => isNewR ckpt r && containsSub r.content "THUMBS_DOWN"))
  + 0.05 * ((given.filter (fun r => isNewR ckpt r && containsSub r.content "THUMBS_UP")).length : ℚ)
  + 0.2 * ((given.filter (fun r => isNewR ckpt r && containsSub r.content "THUMBS_DOWN")).length : ℚ)

/-! Concrete inputs used by the counterexamples, the failing-input
evaluations and the witnesses. -/

/-- A constant weight-factor table: every giver's stored weight is 1/2. -/
def Whalf : String → ℚ := fun _ => 1/2

/-- A fresh participant with empty history. -/
def pBase : Participant :=
  { login := "alice", name := "", score := 0, rank := none, trend := none,
    weight_factor := 0, pos_in := 0, weighted_pos_in := 0, pos_out := 0,
    neg_in := 0, weighted_neg_in := 0, neg_out := 0, last_active_at := none,
    punishment := 0 }

/-- A positive reaction received by `alice`, created at time 5. -/
def rUp5 : Reaction :=
  { id := 1, created_at := 5, content := "THUMBS_UP", giver := some "carol",
    receiver := some "alice", comment_id := 10 }

/-- A reaction whose content contains both markers. -/
def rBoth : Reaction :=
  { id := 2, created_at := 5, content := "THUMBS_UP THUMBS_DOWN",
    giver := some "carol", receiver := some "alice", comment_id := 10 }

/-- A positive reaction created at time 1. -/
def rAt1 : Reaction :=
  { id := 3, created_at := 1, content := "THUMBS_UP", giver := some "carol",
    receiver := some "alice", comment_id := 10 }

/-- `alice` with a prior-run checkpoint at time 5. -/
def pActive5 : Participant := { pBase with last_active_at := some 5 }

/-- A feed reaction given by a deleted account (empty login), targeting a
comment authored by `alice`. -/
def c7raw : RawReaction :=
  { id := 7, createdAt := 3, content := "THUMBS_UP", userLogin := "",
    receiverLogin := "alice", comment_id := 10 }

/-- A participant whose score 1/2 is positive but below 1. -/
def pHalf : Participant := { pBase with login := "bob", score := 1/2 }

/-- A participant with score 3. -/
def pTop : Participant := { pBase with login := "carol", score := 3 }

/-- A second participant with score 3. -/
def pTop2 : Participant := { pBase with login := "erin", score := 3 }

/-- A participant with score 1. -/
def pLow : Participant := { pBase with login := "dana", score := 1 }

/-- The expected weight-factor output for `pTop`. -/
def pTopOut : Participant := { pTop with weight_factor := 1 }

/-- The expected weight-factor output for `pHalf` (score 1/2 against the
clamped divisor 1 gives 1/2 * 9/10 + 1/10 = 11/20). -/
def pHalfOut : Participant := { pHalf with weight_factor := 11/20 }

/-- A sorted participant list: scores 3, 3, 1. -/
def ps6 : List Participant := [pTop, pTop2, pLow]

/-- A feed snapshot holding the single comment with id 1. -/
def fc1 : FeedComment :=
  { id := 1, bodyText := "b", diffHunk := "d", createdAt := some 0,
    lastEditedAt := none, authorLogin := "alice" }

/-- A raw comment by `alice` carrying one reaction whose user login is
empty. -/
def nc1 : NormComment :=
  { author := { login := "alice", name := "A" },
    reactions := [{ user := { login := "", name := "" } }] }

/-- A raw comment whose author login is empty, carrying one reaction by
`bob`. -/
def nc2 : NormComment :=
  { author := { login := "", name := "" },
    reactions := [{ user := { login := "bob", name := "B" } }] }

/-! Helper facts about the substring test on the contents that occur in the
concrete inputs. -/

theorem containsSub_up_up : containsSub "THUMBS_UP" "THUMBS_UP" = true := by decide

theorem containsSub_up_down : containsSub "THUMBS_UP" "THUMBS_DOWN" = false := by decide

theorem containsSub_both_up : containsSub "THUMBS_UP THUMBS_DOWN" "THUMBS_UP" = true := by
  decide

theorem containsSub_both_down : containsSub "THUMBS_UP THUMBS_DOWN" "THUMBS_DOWN" = true := by
  decide

/-- C8: the normalizer's participant registration guards the reaction-user
insertion on the COMMENT AUTHOR's login (source line 90), not the user's own
login, although its inline comment says "skip if user not exist". On a
comment authored by `alice` carrying a reaction from a deleted (empty-login)
account, the empty key IS registered; and on a comment with an empty author
login, the reaction user `bob` — whose own login is non-empty — is NOT
registered. Both contradict the claim that a user is registered exactly when
their own login is non-empty and that no empty-login key is ever added. -/
theorem normalizer_registers_under_empty_login :
    buildParticipants [nc1] "" = some { login := "", name := "" } ∧
    buildParticipants [nc2] "bob" = none := by decide

/-- C7: a reaction whose giver login is empty is left with an unset giver by
the reaction loader, and the score aggregator then crashes reading the
giver's weight factor (source line 400, `None.weight_factor`): the run does
NOT complete without error. `none` is the modelled `AttributeError`. -/
theorem empty_giver_crashes_aggregator :
    (loadReaction c7raw).giver = none ∧
    updateScoreParticipant Whalf zeroReviews pBase [loadReaction c7raw] [] = none := by
  constructor
  · decide
  · simp [updateScoreParticipant, recvFold, recvStep, skipOld, loadReaction, c7raw, pBase]

/-- The refresh pass succeeds exactly when every id it is asked to refresh is
present in the feed snapshot. -/
theorem refreshAll_isSome (feed : List FeedComment) :
    ∀ l : List Nat, (refreshAll feed l).isSome ↔ ∀ i ∈ l, (lookupFeed feed i).isSome := by
  intro l
  induction l with
  | nil => simp [refreshAll]
  | cons i t ih =>
    simp only [refreshAll, List.forall_mem_cons]
    cases hl : lookupFeed feed i with
    | none => simp [hl]
    | some c =>
      cases hr : refreshAll feed t with
      | none => simp [hl, hr, ← ih]
      | some rest => simp [hl, hr, ← ih]

/-- Ids taken from the feed itself are always found in the feed. -/
theorem lookupFeed_of_mem_ids (feed : List FeedComment) :
    ∀ i ∈ feed.map FeedComment.id, (lookupFeed feed i).isSome := by
  induction feed with
  | nil => simp
  | cons c t ih =>
    intro i hi
    simp only [List.map_cons, List.mem_cons] at hi
    rcases hi with h | h
    · simp [lookupFeed, List.find?_cons, h]
    · by_cases hc : c.id == i
      · simp [lookupFeed, List.find?_cons, hc]
      · simpa [lookupFeed, List.find?_cons, hc] using ih i h

/-- C10: comment loading succeeds if and only if every comment id persisted
before the run also appears in the current feed snapshot; a persisted id
absent from the snapshot makes the refresh pass fail with a lookup error
instead of skipping that comment. -/
theorem load_comments_requires_snapshot_superset (oldIds : List Nat)
    (feed : List FeedComment) :
    (loadComments oldIds feed).isSome ↔ ∀ i ∈ oldIds, (lookupFeed feed i).isSome := by
  unfold loadComments
  rw [refreshAll_isSome, List.forall_mem_append]
  constructor
  · exact fun h => h.1
  · intro h
    refine ⟨h, fun i hi => ?_⟩
    exact lookupFeed_of_mem_ids feed i (List.mem_of_mem_filter hi)

/-- Witness for C10 at a concrete input: the only persisted id 1 is present
in the snapshot, so loading succeeds. -/
theorem load_comments_requires_snapshot_superset_witness :
    (loadComments [1] [fc1]).isSome :=
  (load_comments_requires_snapshot_superset [1] [fc1]).mpr (by decide)

/-- C1: running the score aggregator a second time with no new reactions
after the first run's time update does NOT leave the score unchanged. With a
single received THUMBS_UP at time 5 (giver weight 1/2) and no prior
checkpoint, the first run adds 1/2 and the time update sets the checkpoint to
exactly 5; the second run's skip test `created_at < last_active_at` is
strict, so the boundary reaction is counted again and the score becomes 1. -/
theorem second_run_recounts_boundary_reaction :
    (updateScoreParticipant Whalf zeroReviews pBase [rUp5] []).map Participant.score
      = some (1/2) ∧
    (updateScoreParticipant Whalf zeroReviews pBase [rUp5] []).map
      (fun q => (updateTimeParticipant q [] [] [rUp5]).last_active_at) = some (some 5) ∧
    (updateScoreParticipant Whalf zeroReviews pBase [rUp5] []).map
      (fun q => (updateScoreParticipant Whalf zeroReviews
        (updateTimeParticipant q [] [] [rUp5]) [rUp5] []).map Participant.score)
      = some (some 1) ∧
    (1 : ℚ) ≠ 1/2 := by
  refine ⟨?_, ?_, ?_, by norm_num⟩
  · norm_num [updateScoreParticipant, recvFold, recvStep, skipOld, containsSub_up_up,
      Whalf, pBase, rUp5, zeroReviews]
  · norm_num [updateScoreParticipant, recvFold, recvStep, skipOld, containsSub_up_up,
      updateTimeParticipant, bump, Whalf, pBase, rUp5, zeroReviews]
  · norm_num [updateScoreParticipant, recvFold, recvStep, skipOld, containsSub_up_up,
      updateTimeParticipant, bump, Whalf, pBase, rUp5, zeroReviews]

/-- The punishment trigger as a proposition: some reaction on the comment was
created strictly before the (existing) last edit. -/
theorem check_need_iff (le : Option Time) (rs : List Reaction) :
    (rs.any (fun r =>
      match le with
      | some t => decide (t > r.created_at)
      | none => false) = true) ↔
      ∃ r ∈ rs, ∃ t : Time, le = some t ∧ r.created_at < t := by
  cases le with
  | none => simp
  | some t =>
    rw [List.any_eq_true]
    constructor
    · rintro ⟨r, hr, hd⟩
      exact ⟨r, hr, t, rfl, by simpa [gt_iff_lt] using of_decide_eq_true hd⟩
    · rintro ⟨r, hr, t', ht', hlt⟩
      cases ht'
      exact ⟨r, hr, decide_eq_true (by simpa [gt_iff_lt] using hlt)⟩

/-- C2 (amended): when the comment's `last_edited_at` exists and is strictly
later than the creation of at least one reaction on it, the author receives
exactly one 0.5 penalty per comment per run — ADDED to the cumulative
`punishment` counter and subtracted from `score` — however many reactions
satisfy the check; otherwise both fields (and the whole record) are left
unchanged. -/
theorem punishment_applied_once (le : Option Time) (rs : List Reaction) (a : Participant) :
    ((∃ r ∈ rs, ∃ t : Time, le = some t ∧ r.created_at < t) →
      check_comment_update le rs a =
        { a with punishment := a.punishment + 0.5, score := a.score - 0.5 }) ∧
    ((¬ ∃ r ∈ rs, ∃ t : Time, le = some t ∧ r.created_at < t) →
      check_comment_update le rs a = a) := by
  constructor
  · intro h
    unfold check_comment_update
    rw [if_pos ((check_need_iff le rs).mpr h)]
  · intro h
    unfold check_comment_update
    rw [if_neg (fun hb => h ((check_need_iff le rs).mp hb))]

/-- Witness for C2's amended statement: a comment edited at time 2 with one
reaction created at time 1 yields exactly the +0.5 punishment / -0.5 score
update. -/
theorem punishment_applied_once_witness :
    check_comment_update (some 2) [rAt1] pBase =
      { pBase with punishment := pBase.punishment + 0.5, score := pBase.score - 0.5 } :=
  (punishment_applied_once (some 2) [rAt1] pBase).1 ⟨rAt1, by decide, 2, rfl, by decide⟩

/-- C2 counterexample: the claim says 0.5 is SUBTRACTED from the cumulative
punishment counter; the source adds it (line 151). With a fresh author
(punishment 0), a comment edited at time 2 and one reaction created at time
1, the counter afterwards is 0.5, not -0.5. -/
theorem punishment_not_subtracted :
    (check_comment_update (some 2) [rAt1] pBase).punishment ≠ pBase.punishment - 0.5 := by
  norm_num [check_comment_update, rAt1, pBase]

/-! Facts about the max-score fold of `__update_weight_factors`. -/

/-- The source's strict-compare fold equals the fold of `max`. -/
theorem foldMax_eq_specMax (ps : List Participant) :
    ∀ b : ℚ, ps.foldl (fun acc p => if p.score > acc then p.score else acc) b =
      ps.foldl (fun acc p => max acc p.score) b := by
  induction ps with
  | nil => intro b; rfl
  | cons p t ih =>
    intro b
    simp only [List.foldl_cons, ih]
    congr 1
    rcases le_or_lt p.score b with h | h
    · rw [if_neg (not_lt.mpr h), max_eq_left h]
    · rw [if_pos h, max_eq_right h.le]

/-- The max fold never goes below its starting value. -/
theorem le_foldMax (ps : List Participant) :
    ∀ b : ℚ, b ≤ ps.foldl (fun acc p => max acc p.score) b := by
  induction ps with
  | nil => intro b; exact le_refl b
  | cons p t ih =>
    intro b
    exact le_trans (le_max_left b p.score) (ih (max b p.score))

/-- Every member's score is bounded by the max fold. -/
theorem score_le_foldMax (ps : List Participant) :
    ∀ b : ℚ, ∀ p ∈ ps, p.score ≤ ps.foldl (fun acc p => max acc p.score) b := by
  induction ps with
  | nil => intro b p hp; cases hp
  | cons q t ih =>
    intro b p hp
    rcases List.mem_cons.mp hp with h | h
    · subst h
      exact le_trans (le_max_right b p.score) (le_foldMax t (max b p.score))
    · exact ih (max b q.score) p h

/-- The max fold is bounded by any upper bound of the start and the scores. -/
theorem foldMax_le (ps : List Participant) :
    ∀ b M : ℚ, (∀ p ∈ ps, p.score ≤ M) → b ≤ M →
      ps.foldl (fun acc p => max acc p.score) b ≤ M := by
  induction ps with
  | nil => intro b M _ hb; exact hb
  | cons p t ih =>
    intro b M h hb
    exact ih (max b p.score) M (fun q hq => h q (List.mem_cons_of_mem p hq))
      (max_le hb (h p (List.mem_cons_self p t)))

/-- C5: the source's weight recalculation equals the spec's formula — divisor
`max(1.0, maximum score)`, weight 0 for negative scores and
`0.1 + 0.9 * (score / max_score)` otherwise — and consequently every
recalculated weight factor is 0 or lies in [0.1, 1]. -/
theorem update_weight_factors_spec (ps : List Participant) :
    updateWeightFactors ps = specWeightUpdate ps ∧
    ∀ q ∈ updateWeightFactors ps,
      q.weight_factor = 0 ∨ ((0.1 : ℚ) ≤ q.weight_factor ∧ q.weight_factor ≤ 1) := by
  have hm : ps.foldl (fun acc p => if p.score > acc then p.score else acc) 1 =
      ps.foldl (fun acc p => max acc p.score) 1 := foldMax_eq_specMax ps 1
  have h1 : (1 : ℚ) ≤ ps.foldl (fun acc p => max acc p.score) 1 := le_foldMax ps 1
  have hpos : (0 : ℚ) < ps.foldl (fun acc p => max acc p.score) 1 := lt_of_lt_of_le one_pos h1
  constructor
  · unfold updateWeightFactors specWeightUpdate specMaxScore
    rw [hm]
    refine List.map_congr_left (fun p hp => ?_)
    by_cases hneg : p.score < 0
    · rw [if_pos hneg, if_pos hneg]
    · rw [if_neg hneg, if_neg hneg]
      congr 1
      ring
  · intro q hq
    unfold updateWeightFactors at hq
    rw [hm] at hq
    rcases List.mem_map.mp hq with ⟨p, hp, hbody⟩
    by_cases hneg : p.score < 0
    · rw [if_pos hneg] at hbody
      left
      rw [← hbody]
    · rw [if_neg hneg] at hbody
      right
      rw [← hbody]
      have hle : p.score ≤ ps.foldl (fun acc p => max acc p.score) 1 :=
        score_le_foldMax ps 1 p hp
      have hdivle : p.score / ps.foldl (fun acc p => max acc p.score) 1 ≤ 1 :=
        (div_le_one hpos).mpr hle
      have hdiv0 : 0 ≤ p.score / ps.foldl (fun acc p => max acc p.score) 1 :=
        div_nonneg (not_lt.mp hneg) hpos.le
      constructor
      · show (0.1 : ℚ) ≤ p.score / ps.foldl (fun acc p => max acc p.score) 1 * 0.9 + 0.1
        nlinarith
      · show p.score / ps.foldl (fun acc p => max acc p.score) 1 * 0.9 + 0.1 ≤ 1
        nlinarith

/-- Witness for C5 at a concrete input: `pHalf` (score 1/2) gets weight
11/20, which lies in the stated range. -/
theorem update_weight_factors_spec_witness :
    pHalfOut.weight_factor = 0 ∨
      ((0.1 : ℚ) ≤ pHalfOut.weight_factor ∧ pHalfOut.weight_factor ≤ 1) :=
  (update_weight_factors_spec [pHalf]).2 pHalfOut
    (by norm_num [updateWeightFactors, pHalf, pHalfOut, pBase])

/-- C3 counterexample: with a single participant of positive score 1/2 — the
maximum score, and it is positive — the recalculated weight factor is 11/20,
not 1.0, because the divisor is clamped below by 1.0 (the source only
replaces `max_score = 1.0` on a strictly greater score). -/
theorem positive_max_below_one_not_weight_one :
    (0 : ℚ) < pHalf.score ∧
    (updateWeightFactors [pHalf]).map Participant.weight_factor ≠ [1] := by
  constructor
  · norm_num [pHalf, pBase]
  · norm_num [updateWeightFactors, pHalf, pBase]

/-- C3 (amended): whenever the maximum score over all participants is at
least 1.0, every participant holding that maximum (and only those) receives
weight factor 1.0 from the recalculation. -/
theorem weight_factor_one_iff_top (ps : List Participant) (M : ℚ)
    (hub : ∀ p ∈ ps, p.score ≤ M) (hmem : ∃ p ∈ ps, p.score = M) (hM : 1 ≤ M) :
    ∀ q ∈ updateWeightFactors ps, (q.weight_factor = 1 ↔ q.score = M) := by
  have hfold : ps.foldl (fun acc p => max acc p.score) 1 = M := by
    apply le_antisymm (foldMax_le ps 1 M hub hM)
    obtain ⟨p, hp, hsc⟩ := hmem
    calc M = p.score := hsc.symm
      _ ≤ _ := score_le_foldMax ps 1 p hp
  have hM0 : M ≠ 0 := by linarith
  intro q hq
  unfold updateWeightFactors at hq
  rw [foldMax_eq_specMax, hfold] at hq
  rcases List.mem_map.mp hq with ⟨p, hp, hbody⟩
  by_cases hneg : p.score < 0
  · rw [if_pos hneg] at hbody
    subst hbody
    constructor
    · intro h
      exact absurd h (by norm_num)
    · intro h
      simp only at h
      exact absurd h (by intro hh; rw [hh] at hneg; linarith)
  · rw [if_neg hneg] at hbody
    subst hbody
    show (p.score / M * 0.9 + 0.1 = 1) ↔ p.score = M
    constructor
    · intro h
      have hd : p.score / M = 1 := by linarith
      exact (div_eq_one_iff_eq hM0).mp hd
    · intro h
      rw [h, div_self hM0]
      norm_num

/-- Witness for C3's amended statement: with scores 3 and 1 (maximum 3 at
least 1.0), the top scorer's output weight is 1.0 exactly because it holds
the maximum. -/
theorem weight_factor_one_iff_top_witness :
    pTopOut.weight_factor = 1 ↔ pTopOut.score = 3 :=
  weight_factor_one_iff_top [pTop, pLow] 3
    (by norm_num [pTop, pLow, pBase])
    ⟨pTop, by norm_num, by norm_num [pTop, pBase]⟩
    (by norm_num)
    pTopOut
    (by norm_num [updateWeightFactors, pTop, pLow, pTopOut, pBase])

/-! Facts about the ranking loop. -/

/-- The assignment step always stores the new rank. -/
theorem rankOne_rank (p : Participant) (k : Nat) : (rankOne p k).rank = some k := by
  unfold rankOne
  cases p.rank <;> rfl

/-- The assignment step never changes the score. -/
theorem rankOne_score (p : Participant) (k : Nat) : (rankOne p k).score = p.score := by
  unfold rankOne
  cases p.rank <;> rfl

/-- The ranking loop emits a densely ranked chain: given the previous emitted
participant (original record `prev`, assigned rank `r ≥ 1`), the rest of the
sorted input extends it to a chain of `adjacentRankRel`. -/
theorem assignRanksAux_chain (ps : List Participant) :
    ∀ (prev : Participant) (r : Nat), 1 ≤ r →
      List.Chain' ordBy (prev :: ps) →
      List.Chain' adjacentRankRel (rankOne prev r :: assignRanksAux r (some prev.score) ps) := by
  induction ps with
  | nil =>
    intro prev r _ _
    simp [assignRanksAux]
  | cons p t ih =>
    intro prev r hr hchain
    rw [List.chain'_cons] at hchain
    obtain ⟨hord, hchain2⟩ := hchain
    by_cases hsc : prev.score = p.score
    · have hcond : ¬ (r = 0 ∨ some prev.score ≠ some p.score) := by
        push_neg
        exact ⟨by omega, by rw [hsc]⟩
      simp only [assignRanksAux, if_neg hcond]
      rw [List.chain'_cons]
      constructor
      · constructor
        · rw [rankOne_score, rankOne_score, rankOne_rank, rankOne_rank]
          simp [hsc]
        · rw [rankOne_score, rankOne_score, rankOne_rank, rankOne_rank]
          constructor
          · intro h
            rw [hsc] at h
            exact absurd h (lt_irrefl p.score)
          · intro h
            simp only [Option.map_some', Option.some.injEq] at h
            omega
      · have := ih p r hr hchain2
        rwa [hsc]
    · have hlt : p.score < prev.score := by
        rcases hord with h | h
        · exact h
        · exact absurd h.1.symm hsc
      have hcond : r = 0 ∨ some prev.score ≠ some p.score := by
        right
        intro h
        exact hsc (Option.some.inj h)
      simp only [assignRanksAux, if_pos hcond]
      rw [List.chain'_cons]
      constructor
      · constructor
        · rw [rankOne_score, rankOne_score, rankOne_rank, rankOne_rank]
          constructor
          · intro h
            exact absurd h.symm (ne_of_lt hlt)
          · intro h
            simp only [Option.some.injEq] at h
            omega
        · rw [rankOne_score, rankOne_score, rankOne_rank, rankOne_rank]
          simp [hlt]
      · exact ih p (r + 1) (by omega) hchain2

/-- C6: over participants ordered by score descending then `pos_in`
descending, the ranking loop assigns dense ranks — the first participant gets
rank 1, and between adjacent participants equal scores give equal ranks while
a strict score drop increments the rank by exactly one; the `pos_in`
tie-break never affects rank grouping. -/
theorem dense_ranking (ps : List Participant) (hs : List.Chain' ordBy ps) :
    (∀ q ∈ (assignRanks ps).head?, q.rank = some 1) ∧
    List.Chain' adjacentRankRel (assignRanks ps) := by
  cases ps with
  | nil => simp [assignRanks, assignRanksAux]
  | cons p t =>
    have hunfold : assignRanks (p :: t) = rankOne p 1 :: assignRanksAux 1 (some p.score) t := by
      simp only [assignRanks, assignRanksAux]
      rw [if_pos (Or.inl trivial)]
    rw [hunfold]
    constructor
    · intro q hq
      simp only [List.head?_cons, Option.mem_def, Option.some.injEq] at hq
      rw [← hq]
      exact rankOne_rank p 1
    · exact assignRanksAux_chain t p 1 (le_refl 1) hs

/-- Witness for C6 at a concrete sorted input (scores 3, 3, 1): the sortedness
hypothesis holds and the ranked output is a dense-ranking chain. -/
theorem dense_ranking_witness :
    List.Chain' ordBy ps6 ∧ List.Chain' adjacentRankRel (assignRanks ps6) :=
  ⟨by norm_num [List.chain'_cons, ordBy, ps6, pTop, pTop2, pLow, pBase],
   (dense_ranking ps6
     (by norm_num [List.chain'_cons, ordBy, ps6, pTop, pTop2, pLow, pBase])).2⟩

/-! Closed forms of the aggregator's two loops. -/

/-- The given-reactions loop counts exactly the candidate reactions of the
positive class and of the negative class. -/
theorem giveFold_stats (ckpt : Option Time) (rs : List Reaction) :
    ∀ acc : Nat × Nat,
      rs.foldl (giveStep ckpt) acc =
        (acc.1 + (upClassL ckpt rs).length, acc.2 + (downClassL ckpt rs).length) := by
  induction rs with
  | nil => intro acc; simp [upClassL, downClassL]
  | cons r t ih =>
    intro acc
    rw [List.foldl_cons, ih]
    by_cases hskip : skipOld ckpt r = true
    · simp [giveStep, upClassL, downClassL, isNewR, List.filter_cons, hskip]
    · simp only [Bool.not_eq_true] at hskip
      by_cases hup : containsSub r.content "THUMBS_UP" = true
      · simp [giveStep, upClassL, downClassL, isNewR, List.filter_cons, hskip, hup,
          Prod.ext_iff]
        omega
      · simp only [Bool.not_eq_true] at hup
        by_cases hdn : containsSub r.content "THUMBS_DOWN" = true
        · simp [giveStep, upClassL, downClassL, isNewR, List.filter_cons, hskip, hup, hdn,
            Prod.ext_iff]
          omega
        · simp [giveStep, upClassL, downClassL, isNewR, List.filter_cons, hskip, hup, hdn]

/-- The received-reactions loop, when every candidate reaction has an
attached giver, terminates without error and accumulates exactly the weight
sums and counts of the two candidate classes. -/
theorem recvFold_stats (W : String → ℚ) (ckpt : Option Time) (rs : List Reaction) :
    ∀ st : RecvState,
      (∀ r ∈ rs, skipOld ckpt r = false → (r.giver).isSome) →
      (recvFold W ckpt st rs).map (fun s => (s.p1, s.n1, s.pos_cnt, s.neg_cnt)) =
        some (st.p1 + sumW W (upClassL ckpt rs), st.n1 + sumW W (downClassL ckpt rs),
              st.pos_cnt + (upClassL ckpt rs).length,
              st.neg_cnt + (downClassL ckpt rs).length) := by
  induction rs with
  | nil =>
    intro st _
    simp [recvFold, upClassL, downClassL, sumW]
  | cons r t ih =>
    intro st hg
    have hgt : ∀ x ∈ t, skipOld ckpt x = false → (x.giver).isSome :=
      fun x hx => hg x (List.mem_cons_of_mem r hx)
    by_cases hskip : skipOld ckpt r = true
    · have hstep : recvStep W ckpt st r = some st := by
        simp [recvStep, hskip]
      simp only [recvFold, hstep]
      rw [ih st hgt]
      simp [upClassL, downClassL, isNewR, List.filter_cons, hskip]
    · simp only [Bool.not_eq_true] at hskip
      obtain ⟨g, hgv⟩ := Option.isSome_iff_exists.mp (hg r (List.mem_cons_self r t) hskip)
      by_cases hup : containsSub r.content "THUMBS_UP" = true
      · have hstep : recvStep W ckpt st r = some { st with
            p1 := st.p1 + W g,
            pos_cnt := st.pos_cnt + 1,
            reviews := setReview st.reviews r.comment_id (bumpPos (W g)) } := by
          simp [recvStep, hskip, hgv, hup]
        simp only [recvFold, hstep]
        rw [ih _ hgt]
        simp [upClassL, downClassL, isNewR, List.filter_cons, hskip, hup,
          sumW, weightOf, hgv, Prod.ext_iff]
        constructor
        · ring
        · omega
      · simp only [Bool.not_eq_true] at hup
        by_cases hdn : containsSub r.content "THUMBS_DOWN" = true
        · have hstep : recvStep W ckpt st r = some { st with
              n1 := st.n1 + W g,
              neg_cnt := st.neg_cnt + 1,
              reviews := setReview st.reviews r.comment_id (bumpNeg (W g)) } := by
            simp [recvStep, hskip, hgv, hup, hdn]
          simp only [recvFold, hstep]
          rw [ih _ hgt]
          simp [upClassL, downClassL, isNewR, List.filter_cons, hskip, hup, hdn,
            sumW, weightOf, hgv, Prod.ext_iff]
          constructor
          · ring
          · omega
        · simp only [Bool.not_eq_true] at hdn
          have hstep : recvStep W ckpt st r = some st := by
            simp [recvStep, hskip, hgv, hup, hdn]
          simp only [recvFold, hstep]
          rw [ih st hgt]
          simp [upClassL, downClassL, isNewR, List.filter_cons, hskip, hup, hdn]

/-- C4 (amended): over the non-skipped reactions the aggregator adds exactly
`S = P1 - N1 + 0.05 * P2 + 0.2 * N2` to the existing cumulative score, where
P1 sums the givers' weight factors of received reactions whose content
contains "THUMBS_UP", N1 the same for those containing "THUMBS_DOWN" but NOT
"THUMBS_UP" (the "THUMBS_UP" test takes precedence in the source's if/elif
chain), P2 counts given reactions containing "THUMBS_UP", N2 those containing
"THUMBS_DOWN" but not "THUMBS_UP", and other content contributes nothing. The
hypothesis — every candidate received reaction has an attached giver — is
exactly the no-crash condition of the loop. -/
theorem update_score_adds_exact_delta (W : String → ℚ) (rv : Nat → CommentScore)
    (p : Participant) (recv given : List Reaction)
    (hg : ∀ r ∈ recv, skipOld p.last_active_at r = false → (r.giver).isSome) :
    (updateScoreParticipant W rv p recv given).map Participant.score =
      some (p.score
        + (sumW W (upClassL p.last_active_at recv)
           - sumW W (downClassL p.last_active_at recv)
           + 0.05 * ((upClassL p.last_active_at given).length : ℚ)
           + 0.2 * ((downClassL p.last_active_at given).length : ℚ))) := by
  have hr := recvFold_stats W p.last_active_at recv
    { p1 := 0, n1 := 0, pos_cnt := 0, neg_cnt := 0, reviews := rv } hg
  cases hfold : recvFold W p.last_active_at
      { p1 := 0, n1 := 0, pos_cnt := 0, neg_cnt := 0, reviews := rv } recv with
  | none => rw [hfold] at hr; simp at hr
  | some st =>
    rw [hfold] at hr
    simp only [Option.map_some', Option.some.injEq, Prod.mk.injEq] at hr
    obtain ⟨h1, h2, _, _⟩ := hr
    unfold updateScoreParticipant
    rw [hfold]
    simp only [giveFold_stats p.last_active_at given (0, 0), Option.map_some',
      Option.some.injEq]
    rw [h1, h2]
    push_cast
    ring

/-- Witness for C4's amended statement at a concrete input: one received
THUMBS_UP (giver weight 1/2) and one given double-marker reaction. -/
theorem update_score_adds_exact_delta_witness :
    (updateScoreParticipant Whalf zeroReviews pBase [rUp5] [rBoth]).map Participant.score =
      some (pBase.score
        + (sumW Whalf (upClassL pBase.last_active_at [rUp5])
           - sumW Whalf (downClassL pBase.last_active_at [rUp5])
           + 0.05 * ((upClassL pBase.last_active_at [rBoth]).length : ℚ)
           + 0.2 * ((downClassL pBase.last_active_at [rBoth]).length : ℚ))) :=
  update_score_adds_exact_delta Whalf zeroReviews pBase [rUp5] [rBoth] (by decide)

/-- C4 counterexample: the claim's own class definitions — N1 over ALL
received candidates containing "THUMBS_DOWN" — disagree with the code on a
reaction whose content contains both markers: the code classifies it as
positive only (adding 1/2), while the claim's formula yields delta 0. -/
theorem update_score_claim_formula_refuted :
    (updateScoreParticipant Whalf zeroReviews pBase [rBoth] []).map Participant.score ≠
      some (pBase.score + claimDelta Whalf pBase.last_active_at [rBoth] []) := by
  norm_num [updateScoreParticipant, recvFold, recvStep, skipOld, claimDelta, sumW, weightOf,
    isNewR, containsSub_both_up, containsSub_both_down, Whalf, pBase, rBoth, zeroReviews]

/-- Dropping the reactions created strictly before the checkpoint does not
change the received-reactions loop at all. -/
theorem recvFold_filter_old (W : String → ℚ) (t0 : Time) (rs : List Reaction) :
    ∀ st : RecvState,
      recvFold W (some t0) st rs =
        recvFold W (some t0) st (rs.filter (fun r => !decide (r.created_at < t0))) := by
  induction rs with
  | nil => intro st; rfl
  | cons r t ih =>
    intro st
    by_cases h : r.created_at < t0
    · have hstep : recvStep W (some t0) st r = some st := by
        simp [recvStep, skipOld, h]
      rw [List.filter_cons, if_neg (by simp [h])]
      simp only [recvFold, hstep]
      exact ih st
    · rw [List.filter_cons, if_pos (by simp [h])]
      simp only [recvFold]
      cases hst : recvStep W (some t0) st r with
      | none => rfl
      | some st2 => exact ih st2

/-- Dropping the reactions created strictly before the checkpoint does not
change the given-reactions loop either. -/
theorem giveFold_filter_old (t0 : Time) (rs : List Reaction) :
    ∀ acc : Nat × Nat,
      rs.foldl (giveStep (some t0)) acc =
        (rs.filter (fun r => !decide (r.created_at < t0))).foldl (giveStep (some t0)) acc := by
  induction rs with
  | nil => intro acc; rfl
  | cons r t ih =>
    intro acc
    by_cases h : r.created_at < t0
    · have hstep : giveStep (some t0) acc r = acc := by
        simp [giveStep, skipOld, h]
      rw [List.foldl_cons, hstep, List.filter_cons, if_neg (by simp [h])]
      exact ih acc
    · rw [List.filter_cons, if_pos (by simp [h]), List.foldl_cons, List.foldl_cons]
      exact ih _

/-- C9: for a participant with a non-null checkpoint, reactions created
strictly before it contribute nothing to the aggregation — removing them from
the received and the given loops leaves the aggregator's entire result (score
and all counters) unchanged. -/
theorem old_reactions_never_recounted (W : String → ℚ) (rv : Nat → CommentScore)
    (p : Participant) (t0 : Time) (recv given : List Reaction)
    (h : p.last_active_at = some t0) :
    updateScoreParticipant W rv p recv given =
      updateScoreParticipant W rv p
        (recv.filter (fun r => !decide (r.created_at < t0)))
        (given.filter (fun r => !decide (r.created_at < t0))) := by
  unfold updateScoreParticipant
  rw [h]
  simp only [← recvFold_filter_old W t0 recv, ← giveFold_filter_old t0 given]

/-- Witness for C9 at a concrete input: with checkpoint 5, the reaction
created at time 1 may be dropped without changing the result. -/
theorem old_reactions_never_recounted_witness :
    updateScoreParticipant Whalf zeroReviews pActive5 [rAt1] [] =
      updateScoreParticipant Whalf zeroReviews pActive5
        ([rAt1].filter (fun r => !decide (r.created_at < 5)))
        (([] : List Reaction).filter (fun r => !decide (r.created_at < 5))) :=
  old_reactions_never_recounted Whalf zeroReviews pActive5 5 [rAt1] [] rfl

end MetaReview
